import Mathlib

/-!
Verification of the ffprobe utility module of `ffmpeg-sidecar`
(`src/ffprobe.rs`).

The module locates the ffprobe executable (a sidecar binary next to the
currently running executable, with a fallback to the bare name resolved via
the system search path), checks whether it is installed, queries its version
banner, and provides a small builder (`FfprobeCommand`) for assembling
argument lists.

Modelling choices:
* A filesystem path (`RPath`) is the list of its path components.
* The OS interactions (`current_exe`, filesystem existence, process launch)
  are gathered in an explicit environment record `OsEnv`; every function of
  the module becomes a pure function of that environment.
* `std::process::Command` is modelled as a record of the program path, the
  accumulated argument list and the stream/window configuration it receives
  in this module.
* Bytes are `Nat` values below 256; `String::from_utf8` is modelled by an
  executable strict UTF-8 decoder (`from_utf8`).
-/

/-- A filesystem path, as the list of its components. -/
abbrev RPath := List String

/-- Splits a list of characters at its last dot: returns the part before and
the part after, or `none` when no dot occurs. -/
def rsplitDot : List Char → Option (List Char × List Char)
  | [] => none
  | c :: rest =>
    match rsplitDot rest with
    | some (st, ex) => some (c :: st, ex)
    | none => if c = '.' then some ([], rest) else none

/-- Splits a file name into its stem and its optional extension, following
Rust's `Path::file_stem` / `Path::extension`: the split is at the last dot,
and a name whose only dot is a leading one has no extension. -/
def splitFileName (name : String) : String × Option String :=
  match rsplitDot name.toList with
  | none => (name, none)
  | some (st, ex) =>
    if st.isEmpty then (name, none) else (String.mk st, some (String.mk ex))

/-- The file-name stem, as in Rust's `Path::file_stem` for a normal file
name component. -/
def file_stem (name : String) : String := (splitFileName name).1

/-- The file-name extension, as in Rust's `Path::extension` for a normal
file name component. -/
def extensionOf (name : String) : Option String := (splitFileName name).2

/-- Replaces the extension of a file name, following Rust's
`PathBuf::set_extension` on the file-name component: the old extension is
dropped and, when the new one is nonempty, appended after a dot. -/
def setExtName (name ext : String) : String :=
  if ext.isEmpty then file_stem name else file_stem name ++ "." ++ ext

/-- Rust's `Path::parent` on the component model: drops the last component;
a path with no components has no parent. -/
def parent? (p : RPath) : Option RPath :=
  match p with
  | [] => none
  | _ => some p.dropLast

/-- Rust's `Path::join` with a single file-name component. -/
def joinPath (p : RPath) (name : String) : RPath := p ++ [name]

/-- Rust's `PathBuf::set_extension`: rewrites the extension of the final
component; a path without a final component is left unchanged. -/
def set_extension (p : RPath) (ext : String) : RPath :=
  match p.getLast? with
  | none => p
  | some name => p.dropLast ++ [setExtName name ext]

/-- An opaque operating-system error code (`std::io::Error`). -/
abbrev OsErr := Nat

/-- The exit status of a finished process; `code` is `none` when the process
was terminated without an exit code. -/
structure ExitStatus where
  code : Option Int
deriving DecidableEq, Repr

/-- Rust's `ExitStatus::success`: the exit code is zero. -/
def ExitStatus.success (s : ExitStatus) : Bool := s.code == some 0

/-- The captured output of a finished process (`std::process::Output`). -/
structure Output where
  status : ExitStatus
  stdout : List Nat
  stderr : List Nat
deriving DecidableEq, Repr

/-- A stream configuration passed to `Command::stdout` / `Command::stderr`;
only `Stdio::null()` is used by this module. -/
inductive Stdio where
  | null
deriving DecidableEq, Repr

/-- Model of `std::process::Command` as configured by this module: the
program path, the accumulated argument list, the console-window suppression
flag and the stream configurations. -/
structure Command where
  program : RPath
  args : List String
  noWindow : Bool
  stdoutCfg : Option Stdio
  stderrCfg : Option Stdio
deriving DecidableEq, Repr

/-- Rust's `Command::new`: a command for the given program with no arguments
and default configuration. -/
def Command.new (p : RPath) : Command :=
  { program := p, args := [], noWindow := false, stdoutCfg := none, stderrCfg := none }

/-- Rust's `Command::arg`: appends one argument. -/
def Command.arg (c : Command) (a : String) : Command :=
  { c with args := c.args ++ [a] }

/-- Modelled from the spec: `BackgroundCommand::create_no_window` (declared
in the crate's `command` module, outside this file) requests that no console
window be created for the child process on Windows-family platforms. -/
def Command.create_no_window (c : Command) : Command :=
  { c with noWindow := true }

/-- Rust's `Command::stdout`: sets the standard-output configuration. -/
def Command.stdout (c : Command) (s : Stdio) : Command :=
  { c with stdoutCfg := some s }

/-- Rust's `Command::stderr`: sets the standard-error configuration. -/
def Command.stderr (c : Command) (s : Stdio) : Command :=
  { c with stderrCfg := some s }

/-- The operating-system environment the module runs against: the path of
the current executable as reported by the OS, the target platform family,
the filesystem existence oracle, and the process-launch primitives
(`Command::status` and `Command::output`). -/
structure OsEnv where
  current_exe : Except OsErr RPath
  windows : Bool
  pathExists : RPath → Bool
  runStatus : Command → Except OsErr ExitStatus
  runOutput : Command → Except OsErr Output

/-- The error of `ffprobe_sidecar_path`: either the OS could not report the
current executable's path, or that path has no parent directory (the
`anyhow::Context` message "Can't get parent of current_exe"). -/
inductive SidecarError where
  | io (code : OsErr)
  | noParent
deriving DecidableEq, Repr

/-- Model of `ffprobe_sidecar_path`: the directory of the current executable
joined with `ffprobe`, with the extension forced to `exe` on Windows. -/
def ffprobe_sidecar_path (env : OsEnv) : Except SidecarError RPath :=
  match env.current_exe with
  | .error e => .error (.io e)
  | .ok exe =>
    match parent? exe with
    | none => .error .noParent
    | some dir =>
      let path := joinPath dir "ffprobe"
      .ok (if env.windows then set_extension path "exe" else path)

/-- Model of `ffprobe_path`: the sidecar path when its resolution succeeds
and a filesystem entry exists there, else the bare default `ffprobe`. -/
def ffprobe_path (env : OsEnv) : RPath :=
  let default := ["ffprobe"]
  match ffprobe_sidecar_path env with
  | .ok sidecar_path => match env.pathExists sidecar_path with
    | true => sidecar_path
    | false => default
  | .error _ => default

/-- The command built by `ffprobe_is_installed`: the effective path, console
window suppressed, a single `-version` argument, both streams nulled. -/
def installCmd (env : OsEnv) : Command :=
  ((((Command.new (ffprobe_path env)).create_no_window).arg "-version").stderr .null).stdout .null

/-- Model of `ffprobe_is_installed`: launches the effective path with
`-version` and reports whether it exited successfully; every launch error is
mapped to `false`. -/
def ffprobe_is_installed (env : OsEnv) : Bool :=
  match (env.runStatus (installCmd env)).map ExitStatus.success with
  | .ok b => b
  | .error _ => false

/-- A continuation byte of a UTF-8 sequence. -/
def isCont (b : Nat) : Bool := 0x80 ≤ b && b ≤ 0xBF

/-- Strict UTF-8 decoding of a byte list into characters, following the
validation performed by Rust's `String::from_utf8`: rejects overlong forms,
surrogate code points and code points above `0x10FFFF`. -/
def utf8Decode : List Nat → Option (List Char)
  | [] => some []
  | b0 :: rest =>
    if b0 < 0x80 then
      (utf8Decode rest).map (fun cs => Char.ofNat b0 :: cs)
    else if b0 < 0xC2 then none
    else if b0 < 0xE0 then
      match rest with
      | b1 :: rest2 =>
        if isCont b1 then
          (utf8Decode rest2).map (fun cs => Char.ofNat ((b0 - 0xC0) * 0x40 + (b1 - 0x80)) :: cs)
        else none
      | [] => none
    else if b0 < 0xF0 then
      match rest with
      | b1 :: b2 :: rest3 =>
        let lo1 := if b0 = 0xE0 then 0xA0 else 0x80
        let hi1 := if b0 = 0xED then 0x9F else 0xBF
        if lo1 ≤ b1 && b1 ≤ hi1 && isCont b2 then
          (utf8Decode rest3).map
            (fun cs => Char.ofNat ((b0 - 0xE0) * 0x1000 + (b1 - 0x80) * 0x40 + (b2 - 0x80)) :: cs)
        else none
      | _ => none
    else if b0 < 0xF5 then
      match rest with
      | b1 :: b2 :: b3 :: rest4 =>
        let lo1 := if b0 = 0xF0 then 0x90 else 0x80
        let hi1 := if b0 = 0xF4 then 0x8F else 0xBF
        if lo1 ≤ b1 && b1 ≤ hi1 && isCont b2 && isCont b3 then
          (utf8Decode rest4).map
            (fun cs =>
              Char.ofNat ((b0 - 0xF0) * 0x40000 + (b1 - 0x80) * 0x1000 + (b2 - 0x80) * 0x40 + (b3 - 0x80)) :: cs)
        else none
      | _ => none
    else none

/-- Model of `String::from_utf8`: the decoded string, or `none` when the
bytes are not valid UTF-8. -/
def from_utf8 (bytes : List Nat) : Option String :=
  (utf8Decode bytes).map String.mk

/-- The error of `ffprobe_version_with_path`: either the process could not
be launched or its output not captured (`std::io::Error`), or the captured
standard-output bytes were not valid UTF-8 (`FromUtf8Error`, which carries
the offending bytes). The two causes stay distinct, as under `anyhow`. -/
inductive VersionError where
  | io (code : OsErr)
  | utf8 (bytes : List Nat)
deriving DecidableEq, Repr

/-- The command built by `ffprobe_version_with_path`: the given path with a
single `-version` argument and console window suppressed. -/
def versionCmd (path : RPath) : Command :=
  ((Command.new path).arg "-version").create_no_window

/-- Model of `ffprobe_version_with_path`: captures the output of
`path -version` and decodes its standard output as UTF-8, with no further
processing (version parsing is not implemented for ffprobe). -/
def ffprobe_version_with_path (env : OsEnv) (path : RPath) : Except VersionError String :=
  match env.runOutput (versionCmd path) with
  | .error e => .error (.io e)
  | .ok out =>
    match from_utf8 out.stdout with
    | some s => .ok s
    | none => .error (.utf8 out.stdout)

/-- Model of `ffprobe_version`: the version query at the effective path. -/
def ffprobe_version (env : OsEnv) : Except VersionError String :=
  ffprobe_version_with_path env (ffprobe_path env)

/-- Model of the `FfprobeCommand` builder: a wrapper around `Command`. -/
structure FfprobeCommand where
  inner : Command
deriving DecidableEq, Repr

/-- A fresh builder for the given program, with no accumulated arguments. -/
def FfprobeCommand.new (p : RPath) : FfprobeCommand :=
  { inner := Command.new p }

/-- Method `FfprobeCommand::arg`: appends one argument to the inner command. -/
def FfprobeCommand.arg (c : FfprobeCommand) (a : String) : FfprobeCommand :=
  { c with inner := c.inner.arg a }

/-- Method `FfprobeCommand::hide_banner`: appends `-hide_banner`. -/
def FfprobeCommand.hide_banner (c : FfprobeCommand) : FfprobeCommand :=
  c.arg "-hide_banner"

/-- Method `FfprobeCommand::print_format`: appends `-print_format` then the given
format token. -/
def FfprobeCommand.print_format (c : FfprobeCommand) (format : String) : FfprobeCommand :=
  (c.arg "-print_format").arg format

/-- Method `FfprobeCommand::args`: appends each argument in order via `arg`. -/
def FfprobeCommand.args (c : FfprobeCommand) (as : List String) : FfprobeCommand :=
  as.foldl (fun acc a => acc.arg a) c

/-- One call to the builder: either a single-argument `arg` call or a
many-argument `args` call. -/
inductive BuilderCall where
  | one (a : String)
  | many (l : List String)
deriving DecidableEq, Repr

/-- The tokens a builder call supplies. -/
def BuilderCall.tokens : BuilderCall → List String
  | .one a => [a]
  | .many l => l

/-- Applies a sequence of builder calls in order. -/
def applyCalls (c : FfprobeCommand) : List BuilderCall → FfprobeCommand
  | [] => c
  | call :: rest =>
    applyCalls (match call with | .one a => c.arg a | .many l => c.args l) rest

theorem FfprobeCommand.args_inner_args (c : FfprobeCommand) (l : List String) :
    (c.args l).inner.args = c.inner.args ++ l := by
  induction l generalizing c with
  | nil => simp [FfprobeCommand.args]
  | cons a l ih =>
    have h : (c.args (a :: l)) = (c.arg a).args l := rfl
    rw [h, ih]
    simp [FfprobeCommand.arg, Command.arg]

theorem FfprobeCommand.arg_inner_args (c : FfprobeCommand) (a : String) :
    (c.arg a).inner.args = c.inner.args ++ [a] := rfl

/-! ### Concrete environments used by the witnesses -/

/-- An environment where the OS reports an executable path with a parent and
every filesystem entry exists. -/
def envExeOk : OsEnv :=
  { current_exe := .ok ["opt", "app", "host"]
  , windows := false
  , pathExists := fun _ => true
  , runStatus := fun _ => .error 2
  , runOutput := fun _ => .error 2 }

/-- An environment where the OS cannot report the current executable's path,
no filesystem entry exists and every launch fails. -/
def envExeErr : OsEnv :=
  { current_exe := .error 1
  , windows := false
  , pathExists := fun _ => false
  , runStatus := fun _ => .error 2
  , runOutput := fun _ => .error 5 }

/-- A Windows-family environment with a resolvable executable path. -/
def envWin : OsEnv :=
  { current_exe := .ok ["c", "app", "host.exe"]
  , windows := true
  , pathExists := fun _ => true
  , runStatus := fun _ => .error 2
  , runOutput := fun _ => .error 2 }

/-- An environment where the current executable path has no components, so
it has no parent directory. -/
def envRootExe : OsEnv :=
  { current_exe := .ok []
  , windows := false
  , pathExists := fun _ => true
  , runStatus := fun _ => .error 2
  , runOutput := fun _ => .error 2 }

/-! ### Claim theorems -/

/-- C1: effective-path resolution returns the computed sidecar path exactly
when sidecar resolution succeeds and a filesystem entry exists there, and
the literal bare path `ffprobe` otherwise (resolution errored or no entry
exists). -/
theorem ffprobe_path_effective_resolution (env : OsEnv) :
    (∀ p, ffprobe_sidecar_path env = .ok p → env.pathExists p = true →
      ffprobe_path env = p) ∧
    (∀ p, ffprobe_sidecar_path env = .ok p → env.pathExists p = false →
      ffprobe_path env = ["ffprobe"]) ∧
    (∀ e, ffprobe_sidecar_path env = .error e → ffprobe_path env = ["ffprobe"]) := by
  refine ⟨?_, ?_, ?_⟩
  · intro p hok hex
    simp [ffprobe_path, hok, hex]
  · intro p hok hex
    simp [ffprobe_path, hok, hex]
  · intro e herr
    simp [ffprobe_path, herr]

theorem ffprobe_path_effective_resolution_witness :
    ffprobe_path envExeOk = ["opt", "app", "ffprobe"] :=
  (ffprobe_path_effective_resolution envExeOk).1 ["opt", "app", "ffprobe"] rfl rfl

/-- C2: effective-path resolution is total — it always returns a path, and
every internal error from sidecar resolution is swallowed and mapped to the
fallback path `ffprobe`. -/
theorem ffprobe_path_total (env : OsEnv) :
    (∃ p : RPath, ffprobe_path env = p) ∧
    (∀ e, ffprobe_sidecar_path env = .error e → ffprobe_path env = ["ffprobe"]) := by
  refine ⟨⟨ffprobe_path env, rfl⟩, ?_⟩
  intro e herr
  simp [ffprobe_path, herr]

theorem ffprobe_path_total_witness :
    ffprobe_path envExeErr = ["ffprobe"] :=
  (ffprobe_path_total envExeErr).2 (.io 1) rfl

/-- C3: every successful result of sidecar-path resolution is the directory
of the current executable joined with a file whose stem is exactly
`ffprobe` and whose extension is `exe` iff the platform is Windows-family,
else absent. -/
theorem ffprobe_sidecar_path_shape (env : OsEnv) (exe dir p : RPath)
    (hce : env.current_exe = .ok exe)
    (hdir : parent? exe = some dir)
    (h : ffprobe_sidecar_path env = .ok p) :
    p = dir ++ [if env.windows then "ffprobe.exe" else "ffprobe"] ∧
    file_stem (if env.windows then "ffprobe.exe" else "ffprobe") = "ffprobe" ∧
    extensionOf (if env.windows then "ffprobe.exe" else "ffprobe") =
      (if env.windows then some "exe" else none) := by
  have hp : p = if env.windows then set_extension (dir ++ ["ffprobe"]) "exe"
      else dir ++ ["ffprobe"] := by
    simp [ffprobe_sidecar_path, hce, hdir, joinPath] at h
    exact h.symm
  cases hw : env.windows with
  | true =>
    refine ⟨?_, by decide, by decide⟩
    rw [hp, hw]
    simp only [if_true, set_extension, List.getLast?_concat, List.dropLast_concat]
    have hname : setExtName "ffprobe" "exe" = "ffprobe.exe" := by decide
    simp [hname]
  | false =>
    refine ⟨?_, by decide, by decide⟩
    rw [hp, hw]
    simp

theorem ffprobe_sidecar_path_shape_witness :
    (["c", "app", "ffprobe.exe"] : RPath) =
      ["c", "app"] ++ [if envWin.windows then "ffprobe.exe" else "ffprobe"] ∧
    file_stem (if envWin.windows then "ffprobe.exe" else "ffprobe") = "ffprobe" ∧
    extensionOf (if envWin.windows then "ffprobe.exe" else "ffprobe") =
      (if envWin.windows then some "exe" else none) :=
  ffprobe_sidecar_path_shape envWin ["c", "app", "host.exe"] ["c", "app"]
    ["c", "app", "ffprobe.exe"] rfl rfl rfl

/-- C7: sidecar-path resolution fails, with a recoverable error value,
exactly when the OS cannot report the current executable's path or that
path has no parent directory; each cause maps to its own error. -/
theorem ffprobe_sidecar_path_error_iff (env : OsEnv) :
    ((∃ e, ffprobe_sidecar_path env = .error e) ↔
      ((∃ c, env.current_exe = .error c) ∨
       (∃ exe, env.current_exe = .ok exe ∧ parent? exe = none))) ∧
    (∀ c, env.current_exe = .error c →
      ffprobe_sidecar_path env = .error (.io c)) ∧
    (∀ exe, env.current_exe = .ok exe → parent? exe = none →
      ffprobe_sidecar_path env = .error .noParent) := by
  refine ⟨⟨?_, ?_⟩, ?_, ?_⟩
  · rintro ⟨e, he⟩
    cases hce : env.current_exe with
    | error c => exact Or.inl ⟨c, rfl⟩
    | ok exe =>
      cases hdir : parent? exe with
      | none => exact Or.inr ⟨exe, rfl, hdir⟩
      | some dir => simp [ffprobe_sidecar_path, hce, hdir] at he
  · rintro (⟨c, hc⟩ | ⟨exe, hexe, hdir⟩)
    · exact ⟨.io c, by simp [ffprobe_sidecar_path, hc]⟩
    · exact ⟨.noParent, by simp [ffprobe_sidecar_path, hexe, hdir]⟩
  · intro c hc
    simp [ffprobe_sidecar_path, hc]
  · intro exe hexe hdir
    simp [ffprobe_sidecar_path, hexe, hdir]

theorem ffprobe_sidecar_path_error_iff_witness :
    ffprobe_sidecar_path envRootExe = .error .noParent :=
  (ffprobe_sidecar_path_error_iff envRootExe).2.2 [] rfl rfl

/-- An environment whose launch primitive captures a successful run printing
the two bytes of `hi` on standard output. -/
def envVersionOk : OsEnv :=
  { current_exe := .error 1
  , windows := false
  , pathExists := fun _ => false
  , runStatus := fun _ => .error 2
  , runOutput := fun _ => .ok ⟨⟨some 0⟩, [104, 105], []⟩ }

/-- C4: the installation check is true iff the launch of the resolved
executable succeeded with a success status; every launch failure yields
`false` (never an error), in particular when the effective path points at a
nonexistent file and launching nonexistent programs fails. -/
theorem ffprobe_is_installed_spec (env : OsEnv) :
    (ffprobe_is_installed env = true ↔
      ∃ s, env.runStatus (installCmd env) = .ok s ∧ s.success = true) ∧
    (∀ e, env.runStatus (installCmd env) = .error e →
      ffprobe_is_installed env = false) ∧
    ((∀ cmd, env.pathExists cmd.program = false → ∃ e, env.runStatus cmd = .error e) →
      env.pathExists (ffprobe_path env) = false →
      ffprobe_is_installed env = false) := by
  refine ⟨⟨?_, ?_⟩, ?_, ?_⟩
  · intro h
    cases hrs : env.runStatus (installCmd env) with
    | error e => simp [ffprobe_is_installed, Except.map, hrs] at h
    | ok s =>
      refine ⟨s, rfl, ?_⟩
      simpa [ffprobe_is_installed, Except.map, hrs] using h
  · rintro ⟨s, hs, hsucc⟩
    simp [ffprobe_is_installed, Except.map, hs, hsucc]
  · intro e he
    simp [ffprobe_is_installed, Except.map, he]
  · intro hlaunch hex
    obtain ⟨e, he⟩ := hlaunch (installCmd env) hex
    simp [ffprobe_is_installed, Except.map, he]

theorem ffprobe_is_installed_spec_witness :
    ffprobe_is_installed envExeErr = false :=
  (ffprobe_is_installed_spec envExeErr).2.2 (fun _ _ => ⟨2, rfl⟩) rfl

/-- C5: against a binary whose launch succeeds, exits with status 0 and
prints UTF-8 text on standard output, the version query returns exactly the
decoded captured text, unmodified; and `ffprobe_version` is the query at
the effective path. -/
theorem ffprobe_version_exact (env : OsEnv) (path : RPath) (out : Output) (s : String)
    (hrun : env.runOutput (versionCmd path) = .ok out)
    (_hstatus : out.status.success = true)
    (hdec : from_utf8 out.stdout = some s) :
    ffprobe_version_with_path env path = .ok s ∧
    ffprobe_version env = ffprobe_version_with_path env (ffprobe_path env) := by
  refine ⟨?_, rfl⟩
  simp [ffprobe_version_with_path, hrun, hdec]

theorem ffprobe_version_exact_witness :
    ffprobe_version_with_path envVersionOk ["ffprobe"] = .ok "hi" ∧
    ffprobe_version envVersionOk =
      ffprobe_version_with_path envVersionOk (ffprobe_path envVersionOk) :=
  ffprobe_version_exact envVersionOk ["ffprobe"] ⟨⟨some 0⟩, [104, 105], []⟩ "hi"
    rfl rfl (by decide)

/-- C6: the version query fails exactly when the launch-and-capture step
fails or the captured standard-output bytes are not valid UTF-8, each
failure mapped to its own distinct error constructor, and succeeds with the
decoded text otherwise. -/
theorem ffprobe_version_errors (env : OsEnv) (path : RPath) :
    (∀ e, env.runOutput (versionCmd path) = .error e →
      ffprobe_version_with_path env path = .error (.io e)) ∧
    (∀ out, env.runOutput (versionCmd path) = .ok out → from_utf8 out.stdout = none →
      ffprobe_version_with_path env path = .error (.utf8 out.stdout)) ∧
    (∀ out s, env.runOutput (versionCmd path) = .ok out → from_utf8 out.stdout = some s →
      ffprobe_version_with_path env path = .ok s) ∧
    ((∃ er, ffprobe_version_with_path env path = .error er) ↔
      ((∃ e, env.runOutput (versionCmd path) = .error e) ∨
       (∃ out, env.runOutput (versionCmd path) = .ok out ∧
         from_utf8 out.stdout = none))) := by
  refine ⟨?_, ?_, ?_, ⟨?_, ?_⟩⟩
  · intro e he
    simp [ffprobe_version_with_path, he]
  · intro out hout hdec
    simp [ffprobe_version_with_path, hout, hdec]
  · intro out s hout hdec
    simp [ffprobe_version_with_path, hout, hdec]
  · rintro ⟨er, her⟩
    cases hout : env.runOutput (versionCmd path) with
    | error e => exact Or.inl ⟨e, rfl⟩
    | ok out =>
      cases hdec : from_utf8 out.stdout with
      | none => exact Or.inr ⟨out, rfl, hdec⟩
      | some s => simp [ffprobe_version_with_path, hout, hdec] at her
  · rintro (⟨e, he⟩ | ⟨out, hout, hdec⟩)
    · exact ⟨.io e, by simp [ffprobe_version_with_path, he]⟩
    · exact ⟨.utf8 out.stdout, by simp [ffprobe_version_with_path, hout, hdec]⟩

theorem ffprobe_version_errors_witness :
    ffprobe_version_with_path envExeErr ["ffprobe"] = .error (.io 5) :=
  (ffprobe_version_errors envExeErr ["ffprobe"]).1 5 rfl

/-- C8: on a fresh builder, `hide_banner` then `print_format "json"` yields
exactly `["-hide_banner", "-print_format", "json"]`; in general
`hide_banner` appends the single token `-hide_banner` and `print_format`
appends `-print_format` followed by the supplied format token. -/
theorem hide_banner_then_print_format (c : FfprobeCommand) (p : RPath) (f : String) :
    ((FfprobeCommand.new p).hide_banner.print_format "json").inner.args =
      ["-hide_banner", "-print_format", "json"] ∧
    c.hide_banner.inner.args = c.inner.args ++ ["-hide_banner"] ∧
    (c.print_format f).inner.args = c.inner.args ++ ["-print_format", f] := by
  refine ⟨rfl, rfl, ?_⟩
  simp [FfprobeCommand.print_format, FfprobeCommand.arg, Command.arg]

/-- C9: any sequence of `arg`/`args` calls accumulates exactly the
concatenation of the supplied tokens in call order; in particular
`args ["a", "b"]` after `arg "x"` yields the previous arguments followed by
`["x", "a", "b"]`, and `["x", "a", "b"]` from a fresh builder. -/
theorem builder_args_concat (c : FfprobeCommand) (calls : List BuilderCall) :
    (applyCalls c calls).inner.args =
      c.inner.args ++ (calls.map BuilderCall.tokens).flatten ∧
    ((c.arg "x").args ["a", "b"]).inner.args = c.inner.args ++ ["x", "a", "b"] ∧
    (((FfprobeCommand.new ["ffprobe"]).arg "x").args ["a", "b"]).inner.args =
      ["x", "a", "b"] := by
  refine ⟨?_, ?_, rfl⟩
  · induction calls generalizing c with
    | nil => simp [applyCalls]
    | cons call rest ih =>
      cases call with
      | one a =>
        simp [applyCalls, ih, FfprobeCommand.arg_inner_args, BuilderCall.tokens]
      | many l =>
        simp [applyCalls, ih, FfprobeCommand.args_inner_args, BuilderCall.tokens]
  · rw [FfprobeCommand.args_inner_args, FfprobeCommand.arg_inner_args]
    simp

/-- C10: every builder method only appends — the target program and all
previously accumulated arguments are preserved, the old argument list being
a prefix of the new one. -/
theorem builder_frame (c : FfprobeCommand) (a f : String) (l : List String) :
    (c.hide_banner.inner.program = c.inner.program ∧
      c.inner.args <+: c.hide_banner.inner.args) ∧
    ((c.print_format f).inner.program = c.inner.program ∧
      c.inner.args <+: (c.print_format f).inner.args) ∧
    ((c.arg a).inner.program = c.inner.program ∧
      c.inner.args <+: (c.arg a).inner.args) ∧
    ((c.args l).inner.program = c.inner.program ∧
      c.inner.args <+: (c.args l).inner.args) := by
  refine ⟨⟨rfl, ⟨["-hide_banner"], rfl⟩⟩, ⟨rfl, ⟨["-print_format", f], ?_⟩⟩,
    ⟨rfl, ⟨[a], rfl⟩⟩, ⟨?_, ⟨l, (FfprobeCommand.args_inner_args c l).symm⟩⟩⟩
  · simp [FfprobeCommand.print_format, FfprobeCommand.arg, Command.arg]
  · induction l generalizing c with
    | nil => rfl
    | cons x xs ih => exact ih (c.arg x)
